import Mathlib

/-!
# Verification of the GoPick search-and-install engine

Shallow embedding of the core logic of the GoPick repository:
the TTL-based result cache (`internal/cache`), the install-command
builder (`internal/packages`), the history log (`internal/history`),
the retrying scraper (`internal/scraper`), and the TUI session state
machine (`internal/tui`).  Definitions are translated from the Go
source; times are modelled as integer nanosecond counts (Go
`time.Time`/`time.Duration`), strings as Lean `String` or `List Char`
where character-level recursion is required.
-/

set_option maxRecDepth 4096

namespace GoPick

/-- Go `cache.Package` from `internal/cache`. -/
structure Package where
  Name        : String
  ImportPath  : String
  Description : String
  Version     : String
  IsInstalled : Bool
deriving DecidableEq, Repr

/-- Go `cache.CacheEntry` from `internal/cache`: query, ordered results,
write timestamp (Go `time.Time`, modelled as nanoseconds). -/
structure CacheEntry where
  query     : String
  results   : List Package
  timestamp : Int
deriving DecidableEq, Repr

/-- Nanoseconds in one hour (Go `time.Hour`). -/
def hourNs : Int := 3600 * 1000000000

/-- Nanoseconds in one day (`24 * time.Hour`). -/
def dayNs : Int := 24 * hourNs

namespace Cache

/-- The cache directory: one record per query.  The Go code keys records
by a SHA-256 hash of the query text used as a filename; the hash is
injective for the purposes of the cache's logic, so the embedding keys
records by the query itself. -/
def State := List (String × CacheEntry)

/-- Go `Cache.isExpired`: `time.Since(timestamp) > ttl` where
`ttl = time.Duration(ttlDays) * 24 * time.Hour`. -/
def isExpired (ttlDays : Nat) (timestamp now : Int) : Bool :=
  decide ((ttlDays : Int) * dayNs < now - timestamp)

/-- Go `Cache.Set`: builds a `CacheEntry` stamped with the current time and
atomically replaces the record for this query (temp file + rename). -/
def Set (st : State) (query : String) (packages : List Package) (now : Int) : State :=
  (st.filter fun kv => kv.1 ≠ query) ++ [(query, ⟨query, packages, now⟩)]

/-- Go `Cache.Get`: reads the record for the query; not-found when absent;
when present but expired, deletes the record (`os.Remove`) and returns
not-found; otherwise returns the entry.  The returned pair is
(entry-if-found, cache state after the call). -/
def Get (ttlDays : Nat) (st : State) (query : String) (now : Int) :
    Option CacheEntry × State :=
  match st.lookup query with
  | none => (none, st)
  | some entry =>
    if isExpired ttlDays entry.timestamp now then
      (none, st.filter fun kv => kv.1 ≠ query)
    else
      (some entry, st)

end Cache

namespace Manager

/-- The accumulation loop of `Manager.GetInstallCommand`: walks the
package list in order, appending `importPath@version` (when a version is
present) or `importPath` for every package that is not installed. -/
def collect : List Package → List String
  | [] => []
  | p :: rest =>
    if p.IsInstalled then collect rest
    else (if p.Version ≠ "" then p.ImportPath ++ "@" ++ p.Version else p.ImportPath)
      :: collect rest

/-- Go `Manager.GetInstallCommand`: a single `go get` invocation covering
the not-installed packages, or the empty string when nothing needs
installing. -/
def GetInstallCommand (packages : List Package) : String :=
  let pkgs := collect packages
  if pkgs = [] then "" else "go get " ++ String.intercalate " " pkgs

end Manager

/-- Rendering of one package inside the install command, as the spec
describes it: `importPath@version` when a version is present,
`importPath` otherwise. -/
def renderPkg (p : Package) : String :=
  if p.Version = "" then p.ImportPath else p.ImportPath ++ "@" ++ p.Version

/-- Go `history.ActionType`. -/
inductive ActionType where
  | viewed
  | installed
deriving DecidableEq, Repr

/-- Go `history.Entry`: timestamp (nanoseconds), package name, import path,
action.  Text fields are modelled as `List Char` because the history
search helper recurses over string slices. -/
structure HEntry where
  timestamp  : Int
  package    : List Char
  importPath : List Char
  action     : ActionType
deriving DecidableEq, Repr

namespace History

/-- The recursive substring helper `contains` from
`internal/history/history.go`:
`len(substr) > 0 && len(s) >= len(substr) && (s == substr || contains(s[1:], substr) || contains(s[:len(s)-1], substr))`. -/
def contains (s substr : List Char) : Bool :=
  if h : 0 < substr.length ∧ substr.length ≤ s.length then
    decide (s = substr) || contains s.tail substr || contains s.dropLast substr
  else
    false
termination_by s.length
decreasing_by
  all_goals
    have hpos : 0 < s.length := lt_of_lt_of_le h.1 h.2
    simp [List.length_tail, List.length_dropLast]
    omega

/-- Go `History.Search`: keeps, in original order, the entries whose
package or import path matches the query per `contains`. -/
def Search (entries : List HEntry) (query : List Char) : List HEntry :=
  entries.filter fun e => contains e.package query || contains e.importPath query

/-- Go `History.isDuplicate`: scans only the last 10 entries for a
matching (package, import path, action) written within the past hour. -/
def isDuplicate (entries : List HEntry) (packageName importPath : List Char)
    (action : ActionType) (now : Int) : Bool :=
  let start := entries.length - 10
  (entries.drop start).any fun e =>
    decide (e.package = packageName) && decide (e.importPath = importPath) &&
    decide (e.action = action) && decide (now - e.timestamp < hourNs)

/-- Go `History.Add`: no-op on a duplicate; otherwise appends the new entry
and truncates from the front when the log exceeds `maxEntries`. -/
def Add (maxEntries : Nat) (entries : List HEntry) (packageName importPath : List Char)
    (action : ActionType) (now : Int) : List HEntry :=
  if isDuplicate entries packageName importPath action now then entries
  else
    let entries' := entries ++ [⟨now, packageName, importPath, action⟩]
    if maxEntries < entries'.length then entries'.drop (entries'.length - maxEntries)
    else entries'

/-- Go `History.Clear`: truncates the log to empty. -/
def Clear : List HEntry := []

end History

/-- Outcome of one fetch attempt in `Scraper.Search`.  Transport errors,
non-success status codes, and document-parse failures all count as a
failed attempt carrying the error text (`fail`); an attempt that yields
a successfully parsed document is abstracted as `success` carrying the
packages later extracted by `parseResults`. -/
inductive FetchOutcome where
  | fail (e : String)
  | success (doc : List Package)
deriving DecidableEq, Repr

/-- Whether an attempt outcome yielded a parsed document. -/
def FetchOutcome.isSuccessB : FetchOutcome → Bool
  | .success _ => true
  | .fail _ => false

/-- The error carried by a failed attempt, if any. -/
def FetchOutcome.errOf : FetchOutcome → Option String
  | .fail e => some e
  | .success _ => none

/-- Observable trace of one `Scraper.Search` call: the returned value,
the number of fetch attempts issued, and the sequence of backoff sleep
durations (seconds) in order. -/
structure SearchRun where
  result   : Except String (List Package)
  attempts : Nat
  sleeps   : List Nat
deriving Repr

namespace Scraper

/-- The error of an exhausted retry loop:
`fmt.Errorf("failed to fetch search results after %d attempts: %w", maxRetries, lastErr)`. -/
def searchErrMsg (maxRetries : Nat) (lastErr : Option String) : String :=
  "failed to fetch search results after " ++ toString maxRetries ++ " attempts: " ++
    lastErr.getD ""

/-- The retry loop of `Scraper.Search`:
`for attempt := 0; attempt < maxRetries; attempt++`, sleeping
`2^(attempt-1)` seconds before every attempt after the first
(`1 << (attempt-1)` in the source), stopping at the first attempt whose
document parses, and recording the last error otherwise. -/
def searchAux (fetch : Nat → FetchOutcome) (maxRetries attempt : Nat)
    (lastErr : Option String) (sleeps : List Nat) : SearchRun :=
  if attempt < maxRetries then
    let sleeps' := if attempt = 0 then sleeps else sleeps ++ [2 ^ (attempt - 1)]
    match fetch attempt with
    | .success doc => ⟨Except.ok doc, attempt + 1, sleeps'⟩
    | .fail e => searchAux fetch maxRetries (attempt + 1) (some e) sleeps'
  else
    ⟨Except.error (searchErrMsg maxRetries lastErr), maxRetries, sleeps⟩
termination_by maxRetries - attempt

/-- Go `Scraper.Search`: an empty query returns an empty result list with
no attempt; otherwise the retry loop runs.  The network behaviour of
the upstream is abstracted as `fetch : attempt index → outcome`. -/
def Search (query : String) (maxRetries : Nat) (fetch : Nat → FetchOutcome) : SearchRun :=
  if query = "" then ⟨Except.ok [], 0, []⟩ else searchAux fetch maxRetries 0 none []

/-- The backoff sleeps produced by attempts `a, a+1, ..., a+n-1`:
nothing before attempt 0, `2^(t-1)` seconds before attempt `t ≥ 1`. -/
def sched (a : Nat) : Nat → List Nat
  | 0 => []
  | n + 1 => (if a = 0 then [] else [2 ^ (a - 1)]) ++ sched (a + 1) n

end Scraper

/-- Go `tui.ViewState`. -/
inductive ViewState where
  | search
  | options
  | installing
  | commands
  | help
deriving DecidableEq, Repr

/-- The key messages handled by the TUI key handlers.  `runes s` models
`tea.KeyRunes` carrying the typed characters; `other` models any key
type not named in the `switch`, which falls through to the
message-clearing epilogue of `handleSearchKeys`. -/
inductive KeyMsg where
  | ctrlC
  | esc
  | up
  | down
  | tab
  | enter
  | ctrlH
  | ctrlQ
  | ctrlA
  | ctrlN
  | runes (s : String)
  | other
deriving DecidableEq, Repr

/-- The only `tea.Cmd` value the embedded handlers distinguish:
`tea.Quit`. -/
inductive TeaCmd where
  | quit
deriving DecidableEq, Repr

/-- The session state of `tui.Model` (the fields the key handlers and
search-result handler touch).  `selected` models the true-valued keys of
the Go `map[int]bool` (a false-valued key is observably identical to an
absent one: every read is a value lookup defaulting to false); Go map
iteration order is unspecified and the embedding fixes insertion order —
no theorem below depends on that order.  `cursor` is a Go `int`,
modelled as `Int`; selected indices are written only from the cursor
(non-negative throughout, see the cursor invariant) and from `range`
loops, so they are modelled as `Nat`. -/
structure TuiModel where
  searchValue : String
  lastQuery : String
  packages : List Package
  cursor : Int
  selected : List Nat
  message : String
  messageType : String
  viewState : ViewState
  searching : Bool
  fromCache : Bool
  showHelp : Bool
  firstRun : Bool
  quitWithCommands : Bool
  commandsToPrint : List String
  autoRun : Bool
  commands : List String
deriving DecidableEq, Repr

/-- The `tui.Model` built by `tui.New`: empty input, no results, empty
selection, cursor 0, Search view. -/
def initialModel : TuiModel :=
  { searchValue := "", lastQuery := "", packages := [], cursor := 0, selected := [],
    message := "", messageType := "", viewState := .search, searching := false,
    fromCache := false, showHelp := false, firstRun := false, quitWithCommands := false,
    commandsToPrint := [], autoRun := false, commands := [] }

/-- Go `m.selected[idx] = !m.selected[idx]` on the true-key set: toggle
membership of `i`. -/
def toggleSelected (s : List Nat) (i : Nat) : List Nat :=
  if i ∈ s then s.erase i else s ++ [i]

/-- Go `m.selected[idx] = true` on the true-key set. -/
def setSelected (s : List Nat) (i : Nat) : List Nat :=
  if i ∈ s then s else s ++ [i]

/-- Go `for i := range m.packages { m.selected[i] = true }` on the true-key
set. -/
def selectAll (s : List Nat) (n : Nat) : List Nat :=
  s ++ ((List.range n).filter fun i => !s.contains i)

/-- Go `Model.getSelectedPackages`: walks the selected indices and collects
`m.packages[idx]` for every selected `idx` with `idx < len(m.packages)`;
an index at or beyond the result-list length fails the guard and is
skipped. -/
def getSelectedPackages (m : TuiModel) : List Package :=
  m.selected.filterMap fun idx =>
    if h : idx < m.packages.length then some (m.packages.get ⟨idx, h⟩) else none

/-- Go `Model.handleSearchKeys`.  `clearOk` abstracts whether the external
`cache.Clear()` call of the Shift+C branch succeeds (the two branches
differ only in the transient message).  Returns the updated model and
`tea.Quit` when emitted. -/
def handleSearchKeys (clearOk : Bool) (m : TuiModel) (msg : KeyMsg) :
    TuiModel × Option TeaCmd :=
  match msg with
  | .ctrlC => (m, some .quit)
  | .esc =>
    if m.searchValue = "" then (m, some .quit)
    else ({ m with
            searchValue := "", lastQuery := "", packages := [],
            message := "", cursor := 0 }, none)
  | .up =>
    if 0 < m.packages.length ∧ 0 < m.cursor then
      ({ m with cursor := m.cursor - 1 }, none)
    else (m, none)
  | .down =>
    if 0 < m.packages.length ∧ m.cursor < (m.packages.length : Int) - 1 then
      ({ m with cursor := m.cursor + 1 }, none)
    else (m, none)
  | .tab =>
    if 0 < m.packages.length ∧ m.cursor < (m.packages.length : Int) then
      ({ m with selected := toggleSelected m.selected m.cursor.toNat }, none)
    else (m, none)
  | .enter =>
    if m.firstRun then ({ m with firstRun := false }, none)
    else
      let sel := getSelectedPackages m
      let m1 := if sel.length = 0 ∧ m.cursor < (m.packages.length : Int) then
          { m with selected := setSelected m.selected m.cursor.toNat }
        else m
      if 0 < (getSelectedPackages m1).length then
        ({ m1 with viewState := .options }, none)
      else (m1, none)
  | .ctrlH => ({ m with showHelp := !m.showHelp }, none)
  | .ctrlQ => (m, some .quit)
  | .ctrlA =>
    if 0 < m.packages.length then
      ({ m with selected := selectAll m.selected m.packages.length }, none)
    else (m, none)
  | .ctrlN => ({ m with selected := [] }, none)
  | .runes s =>
    if s = "Q" then (m, some .quit)
    else if s = "H" then ({ m with showHelp := !m.showHelp }, none)
    else if s = "A" then
      (if 0 < m.packages.length then
        { m with selected := selectAll m.selected m.packages.length } else m, none)
    else if s = "N" then ({ m with selected := [] }, none)
    else if s = "C" then
      (if clearOk then
        { m with message := "Cache cleared successfully", messageType := "success" }
       else
        { m with message := "Failed to clear cache", messageType := "error" }, none)
    else (m, none)
  | .other =>
    if m.message ≠ "" then ({ m with message := "" }, none) else (m, none)

/-- Go `Model.handleOptionsKeys`.  The history side effects of the
download branch are external I/O and not modelled. -/
def handleOptionsKeys (m : TuiModel) (msg : KeyMsg) : TuiModel × Option TeaCmd :=
  match msg with
  | .esc => ({ m with viewState := .search }, none)
  | .runes s =>
    if s = "g" ∨ s = "G" then
      let selected := getSelectedPackages m
      let command := Manager.GetInstallCommand selected
      if command ≠ "" then
        ({ m with
            quitWithCommands := true, commandsToPrint := [command],
            autoRun := false }, some .quit)
      else
        ({ m with
            message := "All selected packages are already installed",
            messageType := "info", viewState := .search }, none)
    else if s = "d" ∨ s = "D" then
      let selected := getSelectedPackages m
      let command := Manager.GetInstallCommand selected
      if command ≠ "" then
        ({ m with
            quitWithCommands := true, commandsToPrint := [command],
            autoRun := true }, some .quit)
      else (m, none)
    else if s = "c" ∨ s = "C" then ({ m with viewState := .search }, none)
    else (m, none)
  | _ => (m, none)

/-- Go `Model.handleCommandsKeys`. -/
def handleCommandsKeys (m : TuiModel) (msg : KeyMsg) : TuiModel × Option TeaCmd :=
  match msg with
  | .esc => ({ m with viewState := .search, commands := [] }, none)
  | .enter => ({ m with viewState := .search, commands := [] }, none)
  | .runes s =>
    if s = "q" ∨ s = "Q" then
      ({ m with viewState := .search, commands := [] }, none)
    else (m, none)
  | _ => (m, none)

/-- Go `tui.searchResultsMsg`. -/
structure SearchResultsMsg where
  packages : List Package
  fromCache : Bool
  err : Option String
deriving DecidableEq, Repr

/-- Go `Model.handleSearchResults`: on error only the transient message
changes; on success the result list is replaced, the cursor reset to 0
and the selected set emptied. -/
def handleSearchResults (m : TuiModel) (msg : SearchResultsMsg) : TuiModel :=
  let m0 := { m with searching := false }
  match msg.err with
  | some e => { m0 with message := "Search failed: " ++ e, messageType := "error" }
  | none =>
    let m1 := { m0 with
                packages := msg.packages, fromCache := msg.fromCache,
                cursor := 0, selected := [] }
    if msg.packages.length = 0 then
      { m1 with message := "No packages found", messageType := "info" }
    else
      { m1 with message := "" }

/-- The synchronous state effects of `Model.debounceSearch`: mark
searching; when the current query is empty, clear the result list and
stop (no timer is scheduled; the eventual network search is
asynchronous and not part of this step). -/
def debounceModel (m : TuiModel) : TuiModel :=
  let m1 := { m with searching := true }
  if m.searchValue = "" then { m1 with packages := [], searching := false } else m1

/-- The keystroke tail of `Model.Update`: when the text-input value
changes, record it as the last query and run the synchronous part of
`debounceSearch`. -/
def typeQuery (m : TuiModel) (newValue : String) : TuiModel :=
  if newValue = m.searchValue then m
  else debounceModel { m with searchValue := newValue, lastQuery := newValue }

/-- The cursor invariant of C10: non-negative, and strictly below the
result-list length whenever the list is non-empty. -/
def CursorInv (m : TuiModel) : Prop :=
  0 ≤ m.cursor ∧ (m.packages ≠ [] → m.cursor < (m.packages.length : Int))

lemma collect_eq_filter_map (ps : List Package) :
    Manager.collect ps = (ps.filter fun p => !p.IsInstalled).map renderPkg := by
  induction ps with
  | nil => rfl
  | cons p rest ih =>
    by_cases h : p.IsInstalled
    · simp [Manager.collect, h, ih]
    · by_cases hv : p.Version = ""
      · simp [Manager.collect, h, ih, renderPkg, hv]
      · simp [Manager.collect, h, ih, renderPkg, hv]

lemma go_get_ne_empty (s : String) : "go get " ++ s ≠ "" := by
  intro h
  have hl := congrArg String.length h
  rw [String.length_append] at hl
  have h7 : "go get ".length = 7 := rfl
  have h0 : "".length = 0 := rfl
  rw [h7, h0] at hl
  omega

lemma filter_notInstalled_eq_nil_iff (ps : List Package) :
    (ps.filter fun p => !p.IsInstalled) = [] ↔ ∀ p ∈ ps, p.IsInstalled = true := by
  rw [List.filter_eq_nil_iff]
  constructor
  · intro h p hp
    simpa using h p hp
  · intro h p hp
    simp [h p hp]

lemma getInstallCommand_empty_iff (ps : List Package) :
    Manager.GetInstallCommand ps = "" ↔ ∀ p ∈ ps, p.IsInstalled = true := by
  unfold Manager.GetInstallCommand
  rw [collect_eq_filter_map]
  by_cases h : (ps.filter fun p => !p.IsInstalled) = []
  · rw [h]
    simp only [List.map_nil]
    rw [if_pos trivial]
    exact iff_of_true rfl ((filter_notInstalled_eq_nil_iff ps).mp h)
  · have hmap : (ps.filter fun p => !p.IsInstalled).map renderPkg ≠ [] := by
      simpa using h
    rw [if_neg hmap]
    constructor
    · intro hc; exact absurd hc (go_get_ne_empty _)
    · intro hall
      exact absurd ((filter_notInstalled_eq_nil_iff ps).mpr hall) h

namespace Cache

lemma lookup_filter_ne (l : State) (q : String) :
    ((l.filter fun kv => kv.1 ≠ q).lookup q) = none := by
  induction l with
  | nil => rfl
  | cons kv tl ih =>
    by_cases h : kv.1 = q
    · simpa [List.filter, h] using ih
    · have hne : (q == kv.1) = false := by simp [beq_eq_false_iff_ne, Ne.symm h]
      simpa [List.filter, h, List.lookup, hne] using ih

lemma lookup_Set (st : State) (q : String) (R : List Package) (t : Int) :
    (Set st q R t).lookup q = some ⟨q, R, t⟩ := by
  unfold Set
  induction st with
  | nil => simp [List.lookup]
  | cons kv tl ih =>
    by_cases h : kv.1 = q
    · simpa [List.filter, h] using ih
    · have hne : (q == kv.1) = false := by simp [beq_eq_false_iff_ne, Ne.symm h]
      simpa [List.filter, h, List.lookup, hne] using ih

end Cache

/-- C2: cache round-trip.  `Set(Q, R)` at time `t` followed by `Get(Q)`
at time `t'` with TTL greater than the elapsed time returns found, with
a `CacheEntry` whose results equal `R` unchanged and in order. -/
theorem cache_roundTrip (ttlDays : Nat) (st : Cache.State) (q : String)
    (R : List Package) (t t' : Int) (h : t' - t < (ttlDays : Int) * dayNs) :
    (Cache.Get ttlDays (Cache.Set st q R t) q t').1 = some ⟨q, R, t⟩ := by
  unfold Cache.Get
  rw [Cache.lookup_Set]
  have hnotexp : Cache.isExpired ttlDays t t' = false := by
    simp only [Cache.isExpired, decide_eq_false_iff_not, not_lt]
    omega
  simp [hnotexp]

/-- C2 witness: a concrete round-trip through the cache. -/
theorem cache_roundTrip_witness :
    (Cache.Get 7 (Cache.Set [] "query" [⟨"cobra", "github.com/spf13/cobra", "", "", false⟩] 100)
      "query" 200).1 = some ⟨"query", [⟨"cobra", "github.com/spf13/cobra", "", "", false⟩], 100⟩ :=
  cache_roundTrip 7 [] "query" [⟨"cobra", "github.com/spf13/cobra", "", "", false⟩] 100 200
    (by norm_num [dayNs, hourNs])

/-- C5 counterexample: with TTL 0 and zero elapsed time, `Get` after
`Set` returns *found* (the expiry test `now - timestamp > ttl` is
strict, and `0 > 0` is false), contradicting the claim that every entry
is stale at every elapsed time ≥ 0 including zero. -/
theorem ttlZero_zeroElapsed_cex :
    (Cache.Get 0 (Cache.Set [] "q" [] 5) "q" 5).1 = some ⟨"q", [], 5⟩ := by
  rfl

/-- C5 (amended): with TTL 0, every entry is stale at every *strictly
positive* elapsed time: `Get` returns not-found and deletes the backing
record. -/
theorem ttlZero_stale (st : Cache.State) (q : String) (R : List Package)
    (t t' : Int) (h : t < t') :
    (Cache.Get 0 (Cache.Set st q R t) q t').1 = none ∧
    ((Cache.Get 0 (Cache.Set st q R t) q t').2.lookup q) = none := by
  unfold Cache.Get
  rw [Cache.lookup_Set]
  have hexp : Cache.isExpired 0 t t' = true := by
    simp only [Cache.isExpired, decide_eq_true_eq]
    omega
  refine ⟨by simp [hexp], ?_⟩
  simp only [hexp, if_true]
  exact Cache.lookup_filter_ne _ q

/-- C5 witness: concrete stale read at elapsed time 1. -/
theorem ttlZero_stale_witness :
    (Cache.Get 0 (Cache.Set [] "q" [] 5) "q" 6).1 = none ∧
    ((Cache.Get 0 (Cache.Set [] "q" [] 5) "q" 6).2.lookup "q") = none :=
  ttlZero_stale [] "q" [] 5 6 (by norm_num)

/-- C6: `GetInstallCommand` returns a single `go get` invocation
referencing exactly the not-installed packages in input order, each
rendered as `importPath@version` when a version is present and as
`importPath` otherwise; it returns the empty string exactly when every
package in the list is installed (in particular when the list is
empty). -/
theorem getInstallCommand_spec (ps : List Package) :
    (Manager.GetInstallCommand ps =
      if (ps.filter fun p => !p.IsInstalled) = [] then ""
      else "go get " ++ String.intercalate " "
        ((ps.filter fun p => !p.IsInstalled).map renderPkg)) ∧
    (Manager.GetInstallCommand ps = "" ↔ ∀ p ∈ ps, p.IsInstalled = true) := by
  refine ⟨?_, getInstallCommand_empty_iff ps⟩
  unfold Manager.GetInstallCommand
  rw [collect_eq_filter_map]
  by_cases h : (ps.filter fun p => !p.IsInstalled) = []
  · simp [h]
  · have hmap : (ps.filter fun p => !p.IsInstalled).map renderPkg ≠ [] := by
      simpa using h
    rw [if_neg hmap, if_neg h]

lemma contains_iff (s sub : List Char) :
    History.contains s sub = true ↔ sub ≠ [] ∧ sub <:+: s := by
  induction s, sub using History.contains.induct with
  | case1 s sub h ih1 ih2 =>
    rw [History.contains, dif_pos h]
    have hsubne : sub ≠ [] := List.length_pos.mp h.1
    simp only [Bool.or_eq_true, decide_eq_true_eq, ih1, ih2]
    constructor
    · rintro ((rfl | ⟨-, htail⟩) | ⟨-, hdrop⟩)
      · exact ⟨hsubne, List.infix_rfl⟩
      · refine ⟨hsubne, htail.trans ?_⟩
        have hsfx := List.tail_suffix s
        exact List.IsSuffix.isInfix hsfx
      · refine ⟨hsubne, hdrop.trans ?_⟩
        have hpre := List.dropLast_prefix s
        exact List.IsPrefix.isInfix hpre
    · rintro ⟨-, t₁, t₂, heq⟩
      cases t₁ with
      | nil =>
        cases t₂ with
        | nil =>
          left; left
          simpa using heq.symm
        | cons b bs =>
          right
          refine ⟨hsubne, ?_⟩
          have hdl : s.dropLast = sub ++ (b :: bs).dropLast := by
            rw [← heq]
            simp only [List.nil_append]
            exact List.dropLast_append_of_ne_nil _ (by simp)
          rw [hdl]
          have hpa := List.prefix_append sub (b :: bs).dropLast
          exact List.IsPrefix.isInfix hpa
      | cons a as =>
        left; right
        refine ⟨hsubne, ?_⟩
        have htl : s.tail = as ++ sub ++ t₂ := by
          rw [← heq]; simp
        rw [htl]
        exact ⟨as, t₂, rfl⟩
  | case2 s sub h =>
    rw [History.contains, dif_neg h]
    simp only [Bool.false_eq_true, false_iff]
    rintro ⟨hne, hinf⟩
    exact h ⟨List.length_pos.mpr hne, hinf.length_le⟩

lemma contains_eq_substring (s q : List Char) (hq : q ≠ []) :
    History.contains s q = decide (q <:+: s) := by
  by_cases hin : q <:+: s
  · rw [(contains_iff s q).mpr ⟨hq, hin⟩]
    simp [hin]
  · have hc : History.contains s q ≠ true := fun hc => hin ((contains_iff s q).mp hc).2
    rw [Bool.eq_false_iff.mpr hc]
    simp [hin]

/-- C4 counterexample: on the pair (s = "a", query = ""), the recursive
helper disagrees with the standard substring-containment predicate: the
empty string is a substring of every string, but `contains` returns
false — and consequently `History.Search` with the empty query returns
no entries instead of all entries. -/
theorem contains_empty_cex :
    History.contains ['a'] [] = false ∧ (([] : List Char) <:+: ['a']) ∧
    History.Search [⟨0, ['a'], ['a'], .viewed⟩] [] = [] := by
  have hc : ∀ s : List Char, History.contains s [] = false := fun s => by
    rw [History.contains, dif_neg]
    simp
  refine ⟨hc _, ⟨[], ['a'], rfl⟩, ?_⟩
  simp [History.Search, List.filter, hc]

/-- C4 (amended): for every *non-empty* query, `History.Search` is
exactly a case-sensitive substring filter — it returns, in original
order, precisely the entries whose package or import path contains the
query as a contiguous substring; equivalently the recursive `contains`
helper agrees with substring containment on every pair whose second
component is non-empty.  (On the empty query `contains` returns false,
so `Search` returns no entries rather than all entries.) -/
theorem history_search_substring (entries : List HEntry) (q : List Char) (hq : q ≠ []) :
    History.Search entries q =
      entries.filter fun e => decide (q <:+: e.package) || decide (q <:+: e.importPath) := by
  unfold History.Search
  apply List.filter_congr
  intro e _
  rw [contains_eq_substring _ _ hq, contains_eq_substring _ _ hq]

/-- C4 witness: the amended theorem applied at a concrete log and query. -/
theorem history_search_substring_witness :
    (['o'] : List Char) ≠ [] ∧
    History.Search [⟨0, ['g','o'], ['x'], .viewed⟩, ⟨1, ['a'], ['b'], .installed⟩] ['o'] =
      List.filter
        (fun e => decide ((['o'] : List Char) <:+: e.package) || decide (['o'] <:+: e.importPath))
        [⟨0, ['g','o'], ['x'], .viewed⟩, ⟨1, ['a'], ['b'], .installed⟩] :=
  ⟨by decide, history_search_substring _ ['o'] (by decide)⟩

/-- C7: `Add` called three times in immediate succession (within one
hour) with identical (name, path, action) arguments stores exactly one
entry — the second and third calls hit the bounded duplicate scan and
are no-ops — and calling `Add` again after `Clear` stores a new
entry. -/
theorem history_add_dedup (maxEntries : Nat) (n p : List Char) (a : ActionType)
    (t0 t1 t2 t3 : Int) (hmax : 1 ≤ maxEntries)
    (h1 : t1 - t0 < hourNs) (h2 : t2 - t0 < hourNs) :
    History.Add maxEntries [] n p a t0 = [⟨t0, n, p, a⟩] ∧
    History.Add maxEntries (History.Add maxEntries [] n p a t0) n p a t1 =
      History.Add maxEntries [] n p a t0 ∧
    History.Add maxEntries
      (History.Add maxEntries (History.Add maxEntries [] n p a t0) n p a t1) n p a t2 =
      History.Add maxEntries [] n p a t0 ∧
    History.Add maxEntries History.Clear n p a t3 = [⟨t3, n, p, a⟩] := by
  have hm : ¬ (maxEntries < 1) := by omega
  have hadd_nil : ∀ t : Int, History.Add maxEntries [] n p a t = [⟨t, n, p, a⟩] := by
    intro t
    simp [History.Add, History.isDuplicate, hm]
  have hdup : ∀ t t' : Int, t' - t < hourNs →
      History.isDuplicate [⟨t, n, p, a⟩] n p a t' = true := by
    intro t t' ht
    simp [History.isDuplicate, ht]
  have hl1 := hadd_nil t0
  have hl2 : History.Add maxEntries (History.Add maxEntries [] n p a t0) n p a t1 =
      History.Add maxEntries [] n p a t0 := by
    rw [hl1, History.Add, if_pos (hdup t0 t1 h1)]
  have hl3 : History.Add maxEntries
      (History.Add maxEntries (History.Add maxEntries [] n p a t0) n p a t1) n p a t2 =
      History.Add maxEntries [] n p a t0 := by
    rw [hl2, hl1, History.Add, if_pos (hdup t0 t2 h2)]
  exact ⟨hl1, hl2, hl3, hadd_nil t3⟩

/-- C7 witness: three identical adds at times 0, 10, 20 (within one
hour) on an empty log, then an add after clearing. -/
theorem history_add_dedup_witness :
    (1 ≤ 100 ∧ (10 : Int) - 0 < hourNs ∧ (20 : Int) - 0 < hourNs) ∧
    (History.Add 100 [] ['c'] ['p'] .viewed 0 = [⟨0, ['c'], ['p'], .viewed⟩] ∧
     History.Add 100 (History.Add 100 [] ['c'] ['p'] .viewed 0) ['c'] ['p'] .viewed 10 =
       History.Add 100 [] ['c'] ['p'] .viewed 0 ∧
     History.Add 100
       (History.Add 100 (History.Add 100 [] ['c'] ['p'] .viewed 0) ['c'] ['p'] .viewed 10)
       ['c'] ['p'] .viewed 20 =
       History.Add 100 [] ['c'] ['p'] .viewed 0 ∧
     History.Add 100 History.Clear ['c'] ['p'] .viewed 99 = [⟨99, ['c'], ['p'], .viewed⟩]) :=
  ⟨⟨by norm_num, by norm_num [hourNs], by norm_num [hourNs]⟩,
   history_add_dedup 100 ['c'] ['p'] .viewed 0 10 20 99 (by norm_num)
     (by norm_num [hourNs]) (by norm_num [hourNs])⟩

lemma sched_succ_eq_range' (n : Nat) : ∀ a : Nat,
    Scraper.sched (a + 1) n = (List.range' a n).map (fun k => 2 ^ k) := by
  induction n with
  | zero => intro a; rfl
  | succ n ih =>
    intro a
    rw [Scraper.sched, List.range'_succ a n 1, List.map_cons, ← ih (a + 1)]
    simp

lemma sched_zero_eq_range (n : Nat) :
    Scraper.sched 0 n = (List.range (n - 1)).map (fun k => 2 ^ k) := by
  cases n with
  | zero => rfl
  | succ n =>
    rw [Scraper.sched, List.range_eq_range']
    simpa using sched_succ_eq_range' n 0

lemma searchAux_inv (fetch : Nat → FetchOutcome) (mr : Nat) : ∀ (n a : Nat)
    (le : Option String) (sl : List Nat), mr - a = n → a ≤ mr →
    a ≤ (Scraper.searchAux fetch mr a le sl).attempts ∧
    (Scraper.searchAux fetch mr a le sl).attempts ≤ mr ∧
    (Scraper.searchAux fetch mr a le sl).sleeps =
      sl ++ Scraper.sched a ((Scraper.searchAux fetch mr a le sl).attempts - a) := by
  intro n
  induction n with
  | zero =>
    intro a le sl hn ha
    have hnot : ¬ a < mr := by omega
    rw [Scraper.searchAux, if_neg hnot]
    have haeq : a = mr := by omega
    subst haeq
    simp [Scraper.sched]
  | succ n ih =>
    intro a le sl hn ha
    have hlt : a < mr := by omega
    rw [Scraper.searchAux, if_pos hlt]
    cases hf : fetch a with
    | success doc =>
      dsimp only
      refine ⟨by omega, by omega, ?_⟩
      show (if a = 0 then sl else sl ++ [2 ^ (a - 1)]) =
        sl ++ Scraper.sched a (a + 1 - a)
      have h1 : a + 1 - a = 1 := by omega
      rw [h1, Scraper.sched, Scraper.sched]
      by_cases h0 : a = 0 <;> simp [h0]
    | fail e =>
      dsimp only
      have hrec := ih (a + 1) (some e) (if a = 0 then sl else sl ++ [2 ^ (a - 1)])
        (by omega) (by omega)
      refine ⟨by omega, hrec.2.1, ?_⟩
      rw [hrec.2.2]
      have hk : (Scraper.searchAux fetch mr (a + 1) (some e)
          (if a = 0 then sl else sl ++ [2 ^ (a - 1)])).attempts - a =
          ((Scraper.searchAux fetch mr (a + 1) (some e)
            (if a = 0 then sl else sl ++ [2 ^ (a - 1)])).attempts - (a + 1)) + 1 := by
        have := hrec.1
        omega
      rw [hk, Scraper.sched]
      by_cases h0 : a = 0 <;> simp [h0]

lemma searchAux_first_success (fetch : Nat → FetchOutcome) (mr j : Nat)
    (d : List Package) : ∀ (n a : Nat) (le : Option String) (sl : List Nat),
    j - a = n → a ≤ j → j < mr →
    (∀ k, a ≤ k → k < j → (fetch k).isSuccessB = false) →
    fetch j = FetchOutcome.success d →
    (Scraper.searchAux fetch mr a le sl).result = Except.ok d ∧
    (Scraper.searchAux fetch mr a le sl).attempts = j + 1 := by
  intro n
  induction n with
  | zero =>
    intro a le sl hn ha hj _ hs
    have haj : a = j := by omega
    subst haj
    rw [Scraper.searchAux, if_pos (by omega : a < mr)]
    rw [hs]
    exact ⟨rfl, rfl⟩
  | succ n ih =>
    intro a le sl hn ha hj hfail hs
    have hlt : a < mr := by omega
    have haj : a < j := by omega
    obtain ⟨e, he⟩ : ∃ e, fetch a = FetchOutcome.fail e := by
      cases hf : fetch a with
      | fail e => exact ⟨e, rfl⟩
      | success doc =>
        have := hfail a le_rfl haj
        rw [hf] at this
        simp [FetchOutcome.isSuccessB] at this
    rw [Scraper.searchAux, if_pos hlt, he]
    exact ih (a + 1) (some e) _ (by omega) (by omega) hj
      (fun k hk1 hk2 => hfail k (by omega) hk2) hs

lemma searchAux_all_fail (fetch : Nat → FetchOutcome) (mr : Nat) : ∀ (n a : Nat)
    (le : Option String) (sl : List Nat), mr - a = n → a ≤ mr →
    (∀ k, a ≤ k → k < mr → (fetch k).isSuccessB = false) →
    (Scraper.searchAux fetch mr a le sl).result =
      Except.error (Scraper.searchErrMsg mr
        (if a < mr then (fetch (mr - 1)).errOf else le)) ∧
    (Scraper.searchAux fetch mr a le sl).attempts = mr := by
  intro n
  induction n with
  | zero =>
    intro a le sl hn ha _
    have hnot : ¬ a < mr := by omega
    rw [Scraper.searchAux, if_neg hnot, if_neg hnot]
    exact ⟨rfl, rfl⟩
  | succ n ih =>
    intro a le sl hn ha hfail
    have hlt : a < mr := by omega
    obtain ⟨e, he⟩ : ∃ e, fetch a = FetchOutcome.fail e := by
      cases hf : fetch a with
      | fail e => exact ⟨e, rfl⟩
      | success doc =>
        have := hfail a le_rfl hlt
        rw [hf] at this
        simp [FetchOutcome.isSuccessB] at this
    rw [Scraper.searchAux, if_pos hlt, he]
    have hrec := ih (a + 1) (some e) (if a = 0 then sl else sl ++ [2 ^ (a - 1)])
      (by omega) (by omega) (fun k hk1 hk2 => hfail k (by omega) hk2)
    refine ⟨?_, hrec.2⟩
    rw [if_pos hlt]
    by_cases h2 : a + 1 < mr
    · rw [if_pos h2] at hrec
      exact hrec.1
    · rw [if_neg h2] at hrec
      have hma : mr - 1 = a := by omega
      rw [hma, he]
      exact hrec.1

/-- C3: `Scraper.Search` on a non-empty query makes at most `maxRetries`
attempts; attempt 0 fires immediately and attempt `k ≥ 1` is preceded by
a sleep of `2^(k-1)` seconds (the sleeps recorded are exactly
`[2^0, ..., 2^(attempts-2)]`); the loop stops at the first attempt that
yields a successfully parsed document, returning its results with the
attempt counter equal to that attempt's index plus one; and if every
attempt fails, it returns an error naming the attempt count and the
last failure, with no result data substituted. -/
theorem scraper_search_retry (q : String) (hq : q ≠ "") (mr : Nat)
    (fetch : Nat → FetchOutcome) :
    (Scraper.Search q mr fetch).attempts ≤ mr ∧
    (Scraper.Search q mr fetch).sleeps =
      (List.range ((Scraper.Search q mr fetch).attempts - 1)).map (fun k => 2 ^ k) ∧
    (∀ j d, j < mr → (∀ k, k < j → (fetch k).isSuccessB = false) →
      fetch j = FetchOutcome.success d →
      (Scraper.Search q mr fetch).result = Except.ok d ∧
      (Scraper.Search q mr fetch).attempts = j + 1) ∧
    (0 < mr → (∀ k, k < mr → (fetch k).isSuccessB = false) →
      (Scraper.Search q mr fetch).result =
        Except.error (Scraper.searchErrMsg mr ((fetch (mr - 1)).errOf))) := by
  unfold Scraper.Search
  rw [if_neg hq]
  have hinv := searchAux_inv fetch mr (mr - 0) 0 none [] rfl (Nat.zero_le mr)
  refine ⟨hinv.2.1, ?_, ?_, ?_⟩
  · rw [hinv.2.2, Nat.sub_zero, sched_zero_eq_range]
    simp
  · intro j d hj hfail hs
    exact searchAux_first_success fetch mr j d (j - 0) 0 none [] rfl (Nat.zero_le j) hj
      (fun k _ hk2 => hfail k hk2) hs
  · intro hmr hfail
    have := searchAux_all_fail fetch mr (mr - 0) 0 none [] rfl (Nat.zero_le mr)
      (fun k _ hk2 => hfail k hk2)
    rw [if_pos hmr] at this
    exact this.1

/-- C3 witness: the spec's scenario — the first two attempts fail with a
server error, the third succeeds with one record; `Search` returns that
one result and the attempt counter equals 3. -/
theorem scraper_search_retry_witness :
    ("test" : String) ≠ "" ∧
    (Scraper.Search "test" 3 (fun k => if k < 2 then FetchOutcome.fail "server error"
        else FetchOutcome.success [⟨"pkg", "github.com/test/pkg", "", "", false⟩])).result =
      Except.ok [⟨"pkg", "github.com/test/pkg", "", "", false⟩] ∧
    (Scraper.Search "test" 3 (fun k => if k < 2 then FetchOutcome.fail "server error"
        else FetchOutcome.success [⟨"pkg", "github.com/test/pkg", "", "", false⟩])).attempts = 3 := by
  have h := (scraper_search_retry "test" (by decide) 3
    (fun k => if k < 2 then FetchOutcome.fail "server error"
        else FetchOutcome.success [⟨"pkg", "github.com/test/pkg", "", "", false⟩])).2.2.1
    2 [⟨"pkg", "github.com/test/pkg", "", "", false⟩] (by norm_num)
    (fun k hk => by rw [if_pos hk]; rfl) (by norm_num)
  exact ⟨by decide, h.1, h.2⟩

lemma getSelected_eq (ps : List Package) (sel : List Nat) :
    (sel.filterMap fun idx =>
      if h : idx < ps.length then some (ps.get ⟨idx, h⟩) else none) =
    (sel.filter fun i => decide (i < ps.length)).filterMap (fun i => ps.get? i) := by
  induction sel with
  | nil => rfl
  | cons i tl ih =>
    by_cases h : i < ps.length
    · rw [@List.filterMap_cons_some _ _
          (fun idx => if h : idx < ps.length then some (ps.get ⟨idx, h⟩) else none)
          i tl (ps.get ⟨i, h⟩) (dif_pos h),
        List.filter_cons, decide_eq_true h, if_pos rfl,
        @List.filterMap_cons_some _ _ (fun i => ps.get? i) i
          (tl.filter fun i => decide (i < ps.length)) (ps.get ⟨i, h⟩) (List.get?_eq_get h),
        ih]
    · rw [@List.filterMap_cons_none _ _
          (fun idx => if h : idx < ps.length then some (ps.get ⟨idx, h⟩) else none)
          i tl (dif_neg h),
        List.filter_cons, decide_eq_false h, if_neg Bool.false_ne_true, ih]

/-- C9: `getSelectedPackages` never performs an out-of-bounds access:
it reads exactly the selected indices strictly below the current
result-list length (via the total `get?`), and dropping every stale
index (one at or beyond the list length) from the selected set does not
change its output — stale indices left after the result list shrinks or
is cleared are silently skipped, never dereferenced. -/
theorem getSelectedPackages_safe (m : TuiModel) :
    getSelectedPackages m =
      (m.selected.filter fun i => decide (i < m.packages.length)).filterMap
        (fun i => m.packages.get? i) ∧
    getSelectedPackages m =
      getSelectedPackages
        { m with selected := m.selected.filter fun i => decide (i < m.packages.length) } := by
  constructor
  · exact getSelected_eq m.packages m.selected
  · show (m.selected.filterMap fun idx =>
        if h : idx < m.packages.length then some (m.packages.get ⟨idx, h⟩) else none) =
      ((m.selected.filter fun i => decide (i < m.packages.length)).filterMap fun idx =>
        if h : idx < m.packages.length then some (m.packages.get ⟨idx, h⟩) else none)
    rw [getSelected_eq, getSelected_eq, List.filter_filter]
    simp only [Bool.and_self]

/-- C8: in the Options view the "generate command" key (`g`/`G`) builds
the install command for the selected packages; when it is non-empty the
session marks the command for printing (without auto-run) and quits;
when it is empty — which happens exactly when every selected package is
already installed — the session returns to the Search view with an info
message and no quit. -/
theorem options_generate (m : TuiModel) :
    (Manager.GetInstallCommand (getSelectedPackages m) ≠ "" →
      handleOptionsKeys m (KeyMsg.runes "g") =
        ({ m with
            quitWithCommands := true,
            commandsToPrint := [Manager.GetInstallCommand (getSelectedPackages m)],
            autoRun := false }, some TeaCmd.quit)) ∧
    (Manager.GetInstallCommand (getSelectedPackages m) = "" →
      handleOptionsKeys m (KeyMsg.runes "g") =
        ({ m with
            message := "All selected packages are already installed",
            messageType := "info", viewState := ViewState.search }, none) ∧
      ∀ p ∈ getSelectedPackages m, p.IsInstalled = true) := by
  constructor
  · intro hne
    simp only [handleOptionsKeys]
    rw [if_pos (Or.inl trivial)]
    rw [if_pos hne]
  · intro he
    refine ⟨?_, (getInstallCommand_empty_iff _).mp he⟩
    simp only [handleOptionsKeys]
    rw [if_pos (Or.inl trivial)]
    rw [if_neg (fun hcc => hcc he)]

/-- C8 witness: one selected, not-installed package — the generated
command is non-empty, is marked for printing, and the session quits. -/
theorem options_generate_witness :
    Manager.GetInstallCommand (getSelectedPackages { initialModel with
        packages := [⟨"a", "a", "", "", false⟩], selected := [0],
        viewState := ViewState.options }) ≠ "" ∧
    handleOptionsKeys { initialModel with
        packages := [⟨"a", "a", "", "", false⟩], selected := [0],
        viewState := ViewState.options } (KeyMsg.runes "g") =
      ({ initialModel with
          packages := [⟨"a", "a", "", "", false⟩], selected := [0],
          viewState := ViewState.options, quitWithCommands := true,
          commandsToPrint := [Manager.GetInstallCommand (getSelectedPackages
            { initialModel with
              packages := [⟨"a", "a", "", "", false⟩], selected := [0],
              viewState := ViewState.options })],
          autoRun := false }, some TeaCmd.quit) :=
  ⟨by decide, (options_generate _).1 (by decide)⟩

/-- C1 counterexample, reached by real transitions from the initial
model: type a query ("x"), receive one search result, select it with
Tab, then press Escape.  The escape-clear empties the result list but
leaves the selected set as `{0}` — a non-empty selected set referencing
no valid index of the (now empty) result list, so the invariant "the
selected set is reset whenever the result list changes" fails on the
escape-clear event. -/
theorem selected_escape_cex :
    (handleSearchKeys true (handleSearchKeys true
        (handleSearchResults (typeQuery initialModel "x")
          ⟨[⟨"a", "a", "", "", false⟩], false, none⟩) KeyMsg.tab).1 KeyMsg.esc).1.packages
      = [] ∧
    (handleSearchKeys true (handleSearchKeys true
        (handleSearchResults (typeQuery initialModel "x")
          ⟨[⟨"a", "a", "", "", false⟩], false, none⟩) KeyMsg.tab).1 KeyMsg.esc).1.selected
      = [0] := by
  constructor <;> rfl

/-- C1 (amended): the selected set is reset (emptied) on arrival of new
(successful) search results; the escape-clear of a non-empty query and
the clearing of the query to empty both replace the result list with
the empty list but leave the selected set unchanged, so stale selected
indices may persist after those two events (they then reference no
valid index and are skipped by the bounds guard of every consumer). -/
theorem selected_reset_amended (m : TuiModel) (r : SearchResultsMsg) (clearOk : Bool)
    (hr : r.err = none) (hv : m.searchValue ≠ "") :
    (handleSearchResults m r).selected = [] ∧
    (handleSearchKeys clearOk m KeyMsg.esc).1.packages = [] ∧
    (handleSearchKeys clearOk m KeyMsg.esc).1.selected = m.selected ∧
    (typeQuery m "").packages = [] ∧
    (typeQuery m "").selected = m.selected := by
  have hesc : (handleSearchKeys clearOk m KeyMsg.esc).1 =
      { m with
        searchValue := "", lastQuery := "", packages := [],
        message := "", cursor := 0 } := by
    simp only [handleSearchKeys]
    rw [if_neg hv]
  have htq : typeQuery m "" =
      debounceModel { m with searchValue := "", lastQuery := "" } := by
    unfold typeQuery
    rw [if_neg (Ne.symm hv)]
  refine ⟨?_, ?_, ?_, ?_, ?_⟩
  · unfold handleSearchResults
    rw [hr]
    dsimp only
    split_ifs <;> rfl
  · rw [hesc]
  · rw [hesc]
  · rw [htq]; rfl
  · rw [htq]; rfl

/-- C1 witness: the amended theorem at a concrete session state with a
pending query and one stale selected index. -/
theorem selected_reset_amended_witness :
    ((⟨[⟨"a", "a", "", "", false⟩], false, none⟩ : SearchResultsMsg).err = none ∧
      ({ initialModel with
          searchValue := "x", lastQuery := "x",
          packages := [⟨"a", "a", "", "", false⟩], selected := [0] }
        : TuiModel).searchValue ≠ "") ∧
    (handleSearchResults { initialModel with
        searchValue := "x", lastQuery := "x",
        packages := [⟨"a", "a", "", "", false⟩], selected := [0] }
      ⟨[⟨"a", "a", "", "", false⟩], false, none⟩).selected = [] := by
  refine ⟨⟨rfl, by decide⟩, ?_⟩
  exact (selected_reset_amended { initialModel with
      searchValue := "x", lastQuery := "x",
      packages := [⟨"a", "a", "", "", false⟩], selected := [0] }
    ⟨[⟨"a", "a", "", "", false⟩], false, none⟩ true rfl (by decide)).1

lemma cursorInv_congr (m m' : TuiModel) (h : CursorInv m)
    (hc : m'.cursor = m.cursor) (hp : m'.packages = m.packages) : CursorInv m' := by
  rw [CursorInv, hc, hp]
  exact h

lemma cursorInv_searchKeys (m : TuiModel) (k : KeyMsg) (clearOk : Bool)
    (h : CursorInv m) : CursorInv (handleSearchKeys clearOk m k).1 := by
  obtain ⟨h1, h2⟩ := h
  cases k with
  | ctrlC => exact ⟨h1, h2⟩
  | ctrlQ => exact ⟨h1, h2⟩
  | ctrlH => exact cursorInv_congr m _ ⟨h1, h2⟩ rfl rfl
  | ctrlN => exact cursorInv_congr m _ ⟨h1, h2⟩ rfl rfl
  | esc =>
    simp only [handleSearchKeys]
    split_ifs with hv
    · exact ⟨h1, h2⟩
    · exact ⟨le_refl 0, fun hne => absurd rfl hne⟩
  | up =>
    simp only [handleSearchKeys]
    split_ifs with hc
    · obtain ⟨hlen, hcur⟩ := hc
      have hne : m.packages ≠ [] := by
        intro he
        rw [he] at hlen
        simp at hlen
      have h3 := h2 hne
      refine ⟨?_, fun _ => ?_⟩
      · show (0 : Int) ≤ m.cursor - 1
        omega
      · show m.cursor - 1 < (m.packages.length : Int)
        omega
    · exact ⟨h1, h2⟩
  | down =>
    simp only [handleSearchKeys]
    split_ifs with hc
    · obtain ⟨hlen, hcur⟩ := hc
      refine ⟨?_, fun _ => ?_⟩
      · show (0 : Int) ≤ m.cursor + 1
        omega
      · show m.cursor + 1 < (m.packages.length : Int)
        omega
    · exact ⟨h1, h2⟩
  | tab =>
    simp only [handleSearchKeys]
    split_ifs with hc
    · exact cursorInv_congr m _ ⟨h1, h2⟩ rfl rfl
    · exact ⟨h1, h2⟩
  | enter =>
    simp only [handleSearchKeys]
    split_ifs <;>
      first
        | exact ⟨h1, h2⟩
        | exact cursorInv_congr m _ ⟨h1, h2⟩ rfl rfl
  | ctrlA =>
    simp only [handleSearchKeys]
    split_ifs with hc
    · exact cursorInv_congr m _ ⟨h1, h2⟩ rfl rfl
    · exact ⟨h1, h2⟩
  | runes s =>
    simp only [handleSearchKeys]
    split_ifs <;>
      first
        | exact ⟨h1, h2⟩
        | exact cursorInv_congr m _ ⟨h1, h2⟩ rfl rfl
  | other =>
    simp only [handleSearchKeys]
    split_ifs with hm
    · exact cursorInv_congr m _ ⟨h1, h2⟩ rfl rfl
    · exact ⟨h1, h2⟩

lemma cursorInv_searchResults (m : TuiModel) (r : SearchResultsMsg)
    (h : CursorInv m) : CursorInv (handleSearchResults m r) := by
  unfold handleSearchResults
  cases herr : r.err with
  | some e =>
    exact cursorInv_congr m _ h rfl rfl
  | none =>
    dsimp only
    split_ifs with hlen
    · refine ⟨le_refl 0, fun hne => ?_⟩
      have : 0 < r.packages.length := List.length_pos.mpr hne
      show (0 : Int) < (r.packages.length : Int)
      omega
    · refine ⟨le_refl 0, fun hne => ?_⟩
      have : 0 < r.packages.length := List.length_pos.mpr hne
      show (0 : Int) < (r.packages.length : Int)
      omega

lemma cursorInv_typeQuery (m : TuiModel) (v : String) (h : CursorInv m) :
    CursorInv (typeQuery m v) := by
  unfold typeQuery
  split_ifs with hv
  · exact h
  · unfold debounceModel
    dsimp only
    split_ifs with he
    · exact ⟨h.1, fun hne => absurd rfl hne⟩
    · exact cursorInv_congr m _ h rfl rfl

lemma cursorInv_optionsKeys (m : TuiModel) (k : KeyMsg) (h : CursorInv m) :
    CursorInv (handleOptionsKeys m k).1 := by
  cases k <;>
    first
      | exact cursorInv_congr m _ h rfl rfl
      | · simp only [handleOptionsKeys]
          split_ifs <;>
            first
              | exact h
              | exact cursorInv_congr m _ h rfl rfl

lemma cursorInv_commandsKeys (m : TuiModel) (k : KeyMsg) (h : CursorInv m) :
    CursorInv (handleCommandsKeys m k).1 := by
  cases k <;>
    first
      | exact cursorInv_congr m _ h rfl rfl
      | · simp only [handleCommandsKeys]
          split_ifs <;>
            first
              | exact h
              | exact cursorInv_congr m _ h rfl rfl

/-- C10 counterexample: the sub-claim "the cursor is reset to 0
whenever the result list is replaced or cleared" fails on the
empty-query clear.  Reached by real transitions: type "x", receive two
results, press Down (cursor 1), then delete the query — `debounceSearch`
clears the result list but leaves the cursor at 1. -/
theorem cursor_clear_cex :
    (typeQuery (handleSearchKeys true (handleSearchResults (typeQuery initialModel "x")
        ⟨[⟨"a", "a", "", "", false⟩, ⟨"b", "b", "", "", false⟩], false, none⟩)
        KeyMsg.down).1 "").packages = [] ∧
    (typeQuery (handleSearchKeys true (handleSearchResults (typeQuery initialModel "x")
        ⟨[⟨"a", "a", "", "", false⟩, ⟨"b", "b", "", "", false⟩], false, none⟩)
        KeyMsg.down).1 "").cursor = 1 := by
  constructor <;> rfl

/-- C10 (amended): every key event of the three key handlers, every
search-result message, and every input change preserve the cursor
invariant — the cursor is ≥ 0, and strictly below the result-list
length whenever the list is non-empty; up/down navigation is
bounds-guarded, and the cursor is reset to 0 on arrival of new search
results and on the escape-clear.  (The empty-query clear empties the
result list without resetting the cursor, so the invariant then holds
vacuously rather than through a reset.) -/
theorem cursor_invariant_preserved (m : TuiModel) (k : KeyMsg) (clearOk : Bool)
    (r : SearchResultsMsg) (v : String) (h : CursorInv m) :
    CursorInv (handleSearchKeys clearOk m k).1 ∧
    CursorInv (handleSearchResults m r) ∧
    CursorInv (handleOptionsKeys m k).1 ∧
    CursorInv (handleCommandsKeys m k).1 ∧
    CursorInv (typeQuery m v) ∧
    (r.err = none → (handleSearchResults m r).cursor = 0) ∧
    (m.searchValue ≠ "" → (handleSearchKeys clearOk m KeyMsg.esc).1.cursor = 0) := by
  refine ⟨cursorInv_searchKeys m k clearOk h, cursorInv_searchResults m r h,
    cursorInv_optionsKeys m k h, cursorInv_commandsKeys m k h,
    cursorInv_typeQuery m v h, ?_, ?_⟩
  · intro hr
    unfold handleSearchResults
    rw [hr]
    dsimp only
    split_ifs <;> rfl
  · intro hv
    simp only [handleSearchKeys]
    rw [if_neg hv]

/-- C10 witness: the invariant theorem at the initial model with a Down
key, a successful one-result message, and a typed query. -/
theorem cursor_invariant_preserved_witness :
    CursorInv initialModel ∧
    CursorInv (handleSearchKeys true initialModel KeyMsg.down).1 ∧
    CursorInv (handleSearchResults initialModel
      ⟨[⟨"a", "a", "", "", false⟩], false, none⟩) := by
  have hinv : CursorInv initialModel := ⟨by decide, fun hne => absurd rfl hne⟩
  have h := cursor_invariant_preserved initialModel KeyMsg.down true
    ⟨[⟨"a", "a", "", "", false⟩], false, none⟩ "x" hinv
  exact ⟨hinv, h.1, h.2.1⟩

end GoPick
